import Mathlib

/-!
Shallow embedding of the Zotero embedded HTTP server core
(chrome/content/zotero/xpcom/server.js, provided as src/unnamed/part_000).

Strings are modelled as `List Char`; each byte read from the socket is one
`Char` (the requests and responses relevant to the claims are ASCII).
JavaScript strings, string indexing, `indexOf` (with its -1 convention),
`substr`, `slice`, `split` and object-property assignment are translated
by small helper functions whose semantics mirror the JS builtins on the
arguments the source actually passes.

External collaborators (Mozilla stream components, `Zotero.debug`,
`Zotero.version`, `CONNECTOR_API_VERSION`, `ZOTERO_CONFIG`) are modelled as
configuration parameters or as fields recording observable effects
(`written`, `dispatched`).
-/

/-! ## JavaScript string helpers -/

/-- Does the second list start with the first list? -/
def startsWithL : List Char → List Char → Bool
  | [], _ => true
  | _ :: _, [] => false
  | p :: ps, c :: cs => p == c && startsWithL ps cs

/-- Position of the first occurrence of `sub` in `l` (`String.prototype.indexOf`,
position form). `some 0` for an empty `sub`, as in JS. -/
def idxOfStr (l sub : List Char) : Option Nat :=
  match l with
  | [] => if startsWithL sub [] then some 0 else none
  | _ :: rest =>
    if startsWithL sub l then some 0
    else (idxOfStr rest sub).map (· + 1)

/-- JS `indexOf`: index of first occurrence, `-1` when absent. -/
def jsIndexOfStr (l sub : List Char) : Int :=
  match idxOfStr l sub with
  | some n => Int.ofNat n
  | none => -1

/-- JS `indexOf` for a single character. -/
def jsIndexOfChar (l : List Char) (c : Char) : Int :=
  jsIndexOfStr l [c]

/-- Split at the first occurrence of `sep`: `some (before, after)`, the
separator removed; `none` when `sep` does not occur. -/
def splitFirstAt (sep : List Char) : List Char → Option (List Char × List Char)
  | [] => if startsWithL sep [] then some ([], []) else none
  | c :: rest =>
    if startsWithL sep (c :: rest) then some ([], (c :: rest).drop sep.length)
    else match splitFirstAt sep rest with
         | some (a, b) => some (c :: a, b)
         | none => none

/-- Fuel-driven worker for `splitOnList` (structural recursion keeps the
function kernel-computable). -/
def splitOnListAux : Nat → List Char → List Char → List (List Char)
  | 0, _, l => [l]
  | fuel + 1, sep, l =>
    match splitFirstAt sep l with
    | none => [l]
    | some (a, b) => a :: splitOnListAux fuel sep b

/-- JS `String.prototype.split` with a nonempty string separator. -/
def splitOnList (sep l : List Char) : List (List Char) :=
  splitOnListAux (l.length + 1) sep l

/-- JS `String.prototype.split` with a single-character separator. -/
def splitOnChar (sep : Char) (l : List Char) : List (List Char) :=
  splitOnList [sep] l

/-- ASCII whitespace recognised by JS `trim` and by the regex class. -/
def isJsWs (c : Char) : Bool :=
  c = ' ' || c = '\t' || c = '\n' || c = '\r' || c = '\x0b' || c = '\x0c'

/-- JS `String.prototype.trim` (ASCII whitespace; the inputs of interest
contain no Unicode spaces). -/
def jsTrim (l : List Char) : List Char :=
  ((l.dropWhile isJsWs).reverse.dropWhile isJsWs).reverse

/-- JS `substr(start, length)` for the call shapes the source uses
(`start = 0`, possibly negative `length`; negative length yields the empty
string). -/
def jsSubstrLen (l : List Char) (start len : Int) : List Char :=
  (l.drop start.toNat).take len.toNat

/-- JS `substr(start)` with a nonnegative start. -/
def jsSubstrFrom (l : List Char) (start : Int) : List Char :=
  l.drop start.toNat

/-- ASCII lower-casing, for the case-insensitive (`/i`) regex matches. -/
def lowerC (c : Char) : Char :=
  if 'A' ≤ c ∧ c ≤ 'Z' then Char.ofNat (c.toNat + 32) else c

/-- Strip `pat` (given lower-case) case-insensitively from the front of `l`,
returning the remainder. -/
def stripCI : List Char → List Char → Option (List Char)
  | [], l => some l
  | _ :: _, [] => none
  | p :: ps, c :: cs => if lowerC c = p then stripCI ps cs else none

/-- JS object property write: update the value under an existing key in
place, else append the new property (JS enumeration order). -/
def objSet {K V : Type} [DecidableEq K] : List (K × V) → K → V → List (K × V)
  | [], k, v => [(k, v)]
  | (k', v') :: rest, k, v =>
    if k' = k then (k, v) :: rest else (k', v') :: objSet rest k v

/-- JS object property read. -/
def objGet {K V : Type} [DecidableEq K] : List (K × V) → K → Option V
  | [], _ => none
  | (k', v') :: rest, k => if k' = k then some v' else objGet rest k

/-! ## Server configuration and the response table -/

/-- Environment of the server: `Zotero.isServer` (headless mode flag),
`Zotero.version`, `CONNECTOR_API_VERSION`, and the two
`ZOTERO_CONFIG` bookmarklet origins. -/
structure ServerConfig where
  isServer : Bool
  version : List Char
  connectorApiVersion : List Char
  bookmarkletOrigin : List Char
  httpBookmarkletOrigin : List Char
  deriving DecidableEq

/-- Concrete desktop-mode configuration used to instantiate theorems
(the constants are environmental, not part of any request). -/
def stdConfig : ServerConfig :=
  { isServer := false
    version := "5.0.97".data
    connectorApiVersion := "2".data
    bookmarkletOrigin := "https://www.zotero.org".data
    httpBookmarkletOrigin := "http://www.zotero.org".data }

/-- Zotero.Server.responseCodes (source lines 28-40): the fixed
status-code → reason-phrase table. Absent keys read as JS undefined,
modelled as none. -/
def responseCodes (status : Nat) : Option (List Char) :=
  match status with
  | 200 => some "OK".data
  | 201 => some "Created".data
  | 204 => some "No Content".data
  | 300 => some "Multiple Choices".data
  | 400 => some "Bad Request".data
  | 404 => some "Not Found".data
  | 409 => some "Conflict".data
  | 412 => some "Precondition Failed".data
  | 500 => some "Internal Server Error".data
  | 501 => some "Not Implemented".data
  | 504 => some "Gateway Timeout".data
  | _ => none

/-- Character of a decimal digit. -/
def digitChar (n : Nat) : Char := Char.ofNat (48 + n)

/-- Fuel-driven decimal rendering worker. -/
def natCharsAux : Nat → Nat → List Char
  | 0, _ => []
  | fuel + 1, n =>
    if n < 10 then [digitChar n]
    else natCharsAux fuel (n / 10) ++ [digitChar (n % 10)]

/-- Decimal rendering of a number, as JS string concatenation does. -/
def natChars (n : Nat) : List Char := natCharsAux (n + 1) n

/-- JS truthiness of an optional string: undefined and the empty string are
falsy. -/
def jsTruthy (o : Option (List Char)) : Bool :=
  !(o.getD []).isEmpty

/-- Zotero.Server.DataListener.prototype._generateResponse
(source lines 334-358), as a function of the environment, the connection's
recorded Origin, and the status / contentType / body arguments. A missing
reason phrase renders as the string undefined, as JS concatenation does. -/
def generateResponse (cfg : ServerConfig) (origin : Option (List Char))
    (status : Nat) (contentType body : Option (List Char)) : List Char :=
  "HTTP/1.0 ".data ++ natChars status ++ " ".data
    ++ ((responseCodes status).getD "undefined".data) ++ "\r\n".data
  ++ (if cfg.isServer then [] else
      "X-Zotero-Version: ".data ++ cfg.version ++ "\r\n".data
      ++ "X-Zotero-Connector-API-Version: ".data ++ cfg.connectorApiVersion ++ "\r\n".data
      ++ (if origin = some cfg.bookmarkletOrigin ∨ origin = some cfg.httpBookmarkletOrigin then
            "Access-Control-Allow-Origin: ".data ++ origin.getD [] ++ "\r\n".data
            ++ "Access-Control-Allow-Methods: POST, GET, OPTIONS\r\n".data
            ++ "Access-Control-Allow-Headers: Content-Type,X-Zotero-Connector-API-Version,X-Zotero-Version\r\n".data
          else []))
  ++ (if jsTruthy contentType then
        "Content-Type: ".data ++ contentType.getD [] ++ "\r\n".data
      else [])
  ++ (if jsTruthy body then "\r\n".data ++ body.getD []
      else "Content-Length: 0\r\n\r\n".data)

/-! ## The per-connection state machine -/

/-- Zotero.Server.DataListener per-connection state (source lines 153-167,
plus the fields assigned during header processing). The `written` list
records every response written to the output stream; `dispatched` records
every invocation of _processEndpoint as the pair (method, post data). -/
structure DataListener where
  header : List Char := []
  headerFinished : Bool := false
  body : List Char := []
  bodyLength : Nat := 0
  foundReturn : Bool := false
  origin : Option (List Char) := none
  contentType : Option (List Char) := none
  pathname : Option (List Char) := none
  query : Option (List Char) := none
  responseSent : Bool := false
  written : List (List Char) := []
  dispatched : List (List Char × Option (List Char)) := []
  deriving DecidableEq

/-- Zotero.Server.DataListener.prototype._requestFinished
(source lines 496-520): guarded by _responseSent; the write through the
UTF-8 converter stream is recorded in `written` (responses are ASCII). -/
def requestFinished (s : DataListener) (response : List Char) : DataListener :=
  if s.responseSent then s
  else { s with responseSent := true, written := s.written ++ [response] }

/-- Match of the pattern NAME, zero-or-more spaces, then a captured nonempty
run of `allowed` characters, where NAME was already stripped; used after a
line break was seen. When `needSpace` is true at least one space is
required (the regexes using a plus quantifier on the space). -/
def captureAfterName (needSpace : Bool) (allowed : Char → Bool) (l : List Char) :
    Option (List Char) :=
  let spaces := l.takeWhile (· == ' ')
  if needSpace && spaces.isEmpty then none
  else
    let afterSpaces := l.dropWhile (· == ' ')
    let tok := afterSpaces.takeWhile allowed
    if tok.isEmpty then none else some tok

/-- First (leftmost) match of a header-capture regex of the form
[\r\n]NAME: *([allowed]+) with the /i flag, e.g. the Origin /
Content-Type / Content-Length / Zotero-Bookmarklet / User-Agent patterns
of the source. `name` is given lower-case, including the colon. -/
def headerCapture (name : List Char) (needSpace : Bool) (allowed : Char → Bool) :
    List Char → Option (List Char)
  | [] => none
  | c :: rest =>
    if c = '\r' ∨ c = '\n' then
      match stripCI name rest with
      | some after =>
        match captureAfterName needSpace allowed after with
        | some tok => some tok
        | none => headerCapture name needSpace allowed rest
      | none => headerCapture name needSpace allowed rest
    else headerCapture name needSpace allowed rest

/-- Characters allowed in the token captures [^ \r\n]+. -/
def tokenChar (c : Char) : Bool :=
  c != ' ' && c != '\r' && c != '\n'

/-- Tail of the Host-header regex after the leading line break:
Host: *(localhost|127\.0\.0\.1)(:[0-9]+)?[\r\n] with the /i flag
(source line 242). -/
def hostTail (l : List Char) : Bool :=
  match stripCI "host:".data l with
  | none => false
  | some afterColon =>
    let afterSpaces := afterColon.dropWhile (· == ' ')
    let afterHost :=
      match stripCI "localhost".data afterSpaces with
      | some r => some r
      | none => if startsWithL "127.0.0.1".data afterSpaces then
                  some (afterSpaces.drop 9) else none
    match afterHost with
    | none => false
    | some r =>
      match r with
      | ':' :: r2 =>
        let digits := r2.takeWhile Char.isDigit
        if digits.isEmpty then false
        else match r2.drop digits.length with
             | c :: _ => c == '\r' || c == '\n'
             | [] => false
      | c :: _ => c == '\r' || c == '\n'
      | [] => false

/-- Whether hostRe (source line 242) matches anywhere in the header. -/
def hostMatch : List Char → Bool
  | [] => false
  | c :: rest => ((c == '\r' || c == '\n') && hostTail rest) || hostMatch rest

/-- The request-line regex methodRe = ([A-Z]+) ([^ \r\n?]+)(\?[^ \r\n]+)?
anchored at the start of the header (source line 241): returns
(method, pathname, optional query including its leading question mark). -/
def methodExec (l : List Char) : Option (List Char × List Char × Option (List Char)) :=
  let m := l.takeWhile (fun c => decide ('A' ≤ c) && decide (c ≤ 'Z'))
  if m.isEmpty then none
  else match l.drop m.length with
  | ' ' :: rest =>
    let p := rest.takeWhile (fun c => c != ' ' && c != '\r' && c != '\n' && c != '?')
    if p.isEmpty then none
    else match rest.drop p.length with
    | '?' :: r2 =>
      let q := r2.takeWhile (fun c => c != ' ' && c != '\r' && c != '\n')
      if q.isEmpty then some (m, p, none) else some (m, p, some ('?' :: q))
    | _ => some (m, p, none)
  | _ => none

/-- Origin extraction of _headerFinished (source lines 245-254): the Origin
header, or the fixed trusted origin when the Zotero-Bookmarklet marker
header is present; skipped entirely in headless mode. -/
def extractOrigin (cfg : ServerConfig) (s : DataListener) : DataListener :=
  if cfg.isServer then s
  else match headerCapture "origin:".data false tokenChar s.header with
  | some o => { s with origin := some o }
  | none =>
    match headerCapture "zotero-bookmarklet:".data false tokenChar s.header with
    | some _ => { s with origin := some "https://www.zotero.org".data }
    | none => s

/-- First piece of split(/\s*;/): everything before the whitespace run
preceding the first semicolon; without a semicolon the whole string,
trailing whitespace included, as the regex split finds no separator. -/
def contentTypeFirstPiece (ct : List Char) : List Char :=
  if ';' ∈ ct then ((ct.takeWhile (· != ';')).reverse.dropWhile isJsWs).reverse
  else ct

/-- Content-Type extraction of _headerFinished (source lines 266-270):
the captured token, cut by split(/\s*;/)[0]. The token contains no
space, CR or LF, so the separator is the first semicolon together with
any tab or similar whitespace run immediately before it. -/
def extractContentType (s : DataListener) : DataListener :=
  match headerCapture "content-type:".data false tokenChar s.header with
  | some ct => { s with contentType := some (contentTypeFirstPiece ct) }
  | none => s

/-- Property names of Object.prototype, inherited by the object literal
Zotero.Server.Endpoints = \x7b\x7d. Reading any of them through the
endpoint lookup yields a truthy value (a built-in function, or the
__proto__ accessor yielding Object.prototype itself); engine-specific
legacy extras such as toSource on old SpiderMonkey would extend this
list. -/
def objectPrototypeKeys : List (List Char) :=
  ["constructor".data, "hasOwnProperty".data, "isPrototypeOf".data,
   "propertyIsEnumerable".data, "toLocaleString".data, "toString".data,
   "valueOf".data, "__defineGetter__".data, "__defineSetter__".data,
   "__lookupGetter__".data, "__lookupSetter__".data, "__proto__".data]

/-- Stand-in for the asynchronous Zotero.Server.DataListener.prototype
._processEndpoint call (source line 287/327): the machine records the
invocation; the dispatcher itself is modelled separately. -/
def processEndpointStub (s : DataListener) (method : List Char)
    (postData : Option (List Char)) : DataListener :=
  { s with dispatched := s.dispatched ++ [(method, postData)] }

/-- Numeric value of the captured Content-Length digits (parseInt on a
digit-only capture). -/
def natOfDigits (l : List Char) : Nat :=
  l.foldl (fun n c => n * 10 + (c.toNat - 48)) 0

/-- Zotero.Server.DataListener.prototype._bodyData (source lines 309-329):
once `Content-Length` bytes have arrived, the body is re-decoded from the
first `bodyLength` bytes (the converter-stream round trip truncates to
bodyLength; on the ASCII bodies of interest the UTF-8 decode is the
identity) and the endpoint is invoked. -/
def bodyData (s : DataListener) : DataListener :=
  if s.bodyLength ≤ s.body.length then
    let decoded := s.body.take s.bodyLength
    processEndpointStub { s with body := decoded } "POST".data (some decoded)
  else s

/-- Zotero.Server.DataListener.prototype._headerFinished
(source lines 236-304): origin extraction, Host security gate, request-line
parse, endpoint lookup, and the per-method branches. `eps` is the set of
registered endpoint paths (the own keys of Zotero.Server.Endpoints); the
lookup !Zotero.Server.Endpoints[path] is truthy also for the inherited
Object.prototype property names, which therefore escape the 404 branch. -/
def headerFinishedStep (cfg : ServerConfig) (eps : List (List Char))
    (s : DataListener) : DataListener :=
  let s := { s with headerFinished := true }
  let s := extractOrigin cfg s
  if ¬cfg.isServer ∧ ¬hostMatch s.header then
    requestFinished s (generateResponse cfg s.origin 400
      (some "text/plain".data) (some "Invalid Host header\n".data))
  else
    let s := extractContentType s
    match methodExec s.header with
    | none =>
      requestFinished s (generateResponse cfg s.origin 400
        (some "text/plain".data) (some "Invalid method specified\n".data))
    | some (m, p, q) =>
      if ¬(p ∈ eps ∨ p ∈ objectPrototypeKeys) then
        requestFinished s (generateResponse cfg s.origin 404
          (some "text/plain".data) (some "No endpoint found\n".data))
      else
        let s := { s with pathname := some p, query := q }
        if m = "HEAD".data ∨ m = "OPTIONS".data then
          requestFinished s (generateResponse cfg s.origin 200 none none)
        else if m = "GET".data then
          processEndpointStub s "GET".data none
        else if m = "POST".data then
          match headerCapture "content-length:".data true Char.isDigit s.header with
          | none =>
            requestFinished s (generateResponse cfg s.origin 400
              (some "text/plain".data) (some "Content-length not provided\n".data))
          | some digits =>
            bodyData { s with bodyLength := natOfDigits digits }
        else
          requestFinished s (generateResponse cfg s.origin 501
            (some "text/plain".data) (some "Method not implemented\n".data))

/-- Zotero.Server.DataListener.prototype.onDataAvailable
(source lines 186-231): body accumulation after the header, else the three
tolerant header-terminator detections (see the source for the
lineBreakIndex = 0 and split-terminator branches). -/
def onDataAvailable (cfg : ServerConfig) (eps : List (List Char))
    (s : DataListener) (readData : List Char) : DataListener :=
  if s.headerFinished then
    bodyData { s with body := s.body ++ readData }
  else
    let i1 := jsIndexOfStr readData "\r\n\r\n".data
    if i1 ≠ -1 then
      let s := if i1 ≠ 0 then
          { s with header := s.header ++ readData.take (i1.toNat + 4),
                   body := readData.drop (i1.toNat + 4) }
        else s
      headerFinishedStep cfg eps s
    else
      let i2 := jsIndexOfStr readData "\n\n".data
      if i2 ≠ -1 then
        let s := if i2 ≠ 0 then
            { s with header := s.header ++ readData.take (i2.toNat + 2),
                     body := readData.drop (i2.toNat + 2) }
          else s
        headerFinishedStep cfg eps s
      else if !s.header.isEmpty ∧ s.header.getLast? = some '\n' ∧
          (readData.head? = some '\n' ∨ readData.head? = some '\r') then
        if readData.length > 1 ∧ readData.get? 1 = some '\n' then
          headerFinishedStep cfg eps
            { s with header := s.header ++ readData.take 2, body := readData.drop 2 }
        else
          headerFinishedStep cfg eps
            { s with header := s.header ++ readData.take 1, body := readData.drop 1 }
      else { s with header := s.header ++ readData }

/-- Delivery of a sequence of chunks to one connection. -/
def feed (cfg : ServerConfig) (eps : List (List Char))
    (s : DataListener) (chunks : List (List Char)) : DataListener :=
  chunks.foldl (onDataAvailable cfg eps) s

/-! ## The catch branch of _processEndpoint -/

/-- Catch branch of Zotero.Server.DataListener.prototype._processEndpoint
(source lines 486-490). Note the misplaced parenthesis in the source:
_generateResponse is called with the single argument 500, and the strings
"text/plain" and "An error occurred\n" are passed as extra arguments to
_requestFinished, which ignores them; the caught error is then rethrown
(the Bool records that the rejection is propagated). -/
def processEndpointCatch (cfg : ServerConfig) (s : DataListener) :
    DataListener × Bool :=
  (requestFinished s (generateResponse cfg s.origin 500 none none), true)

/-! ## The multipart/form-data decoder -/

/-- One decoded multipart field (the fieldData object of
_decodeMultipartData): header block, body, and the flat attribute map
written by the Content-Disposition loop. The attribute keys the source
actually produces never collide with the names header and body, so the
map is kept as a separate field. -/
structure MultipartField where
  header : List Char
  body : List Char
  attrs : List (List Char × Option (List Char))
  deriving DecidableEq

deriving instance DecidableEq for Except

/-- The contentDispositionRe = Content-Disposition:\s*(.*)$ match with the
/i flag and no /m flag (source line 523): anchored at both ends of the
whole header-block string, so it matches exactly when the block starts
with the name case-insensitively and everything after the leading
whitespace run is free of line terminators; the capture is that tail. -/
def contentDispositionExec (header : List Char) : Option (List Char) :=
  match stripCI "content-disposition:".data header with
  | none => none
  | some rest =>
    let tail := rest.dropWhile isJsWs
    if tail.all (fun c => c != '\r' && c != '\n') then some tail else none

/-- The parameter loop of _decodeMultipartData (source lines 546-549).
The source evaluates nameVal.split('=') but discards the result, so
nameVal is still the raw string: nameVal[0] and nameVal[1] are its first
and second characters, nameVal.length its character count, and an empty
piece indexes to JS undefined, which stringifies to the key undefined. -/
def cdAttrs (params : List Char) : List (List Char × Option (List Char)) :=
  (splitOnChar ';' params).foldl
    (fun fd nameVal =>
      match nameVal with
      | [] => objSet fd "undefined".data none
      | [c] => objSet fd [c] none
      | c :: d :: _ => objSet fd [c] (some [d]))
    []

/-- Attributes of one field: the Content-Disposition parameters when the
regex matches, else none are set. -/
def fieldAttrs (header : List Char) : List (List Char × Option (List Char)) :=
  match contentDispositionExec header with
  | some params => cdAttrs params
  | none => []

/-- Body of the per-field loop of _decodeMultipartData
(source lines 528-552): trim, locate the header/body separator by the
unixHeaderBoundary < windowsHeaderBoundary && unixHeaderBoundary != -1
test on JS indexOf values, split, and parse the Content-Disposition
parameters; otherwise throw. -/
def decodeField (field : List Char) : Except Unit MultipartField :=
  let f := jsTrim field
  let unixHeaderBoundary := jsIndexOfStr f "\n\n".data
  let windowsHeaderBoundary := jsIndexOfStr f "\r\n\r\n".data
  if unixHeaderBoundary < windowsHeaderBoundary ∧ unixHeaderBoundary ≠ -1 then
    let header := f.take unixHeaderBoundary.toNat
    let body := f.drop (unixHeaderBoundary.toNat + 2)
    .ok ⟨header, body, fieldAttrs header⟩
  else if windowsHeaderBoundary ≠ -1 then
    let header := f.take windowsHeaderBoundary.toNat
    let body := f.drop (windowsHeaderBoundary.toNat + 4)
    .ok ⟨header, body, fieldAttrs header⟩
  else .error ()

/-- The loop of _decodeMultipartData over the retained segments: the first
thrown error aborts the whole decode with no partial result. -/
def decodeFields : List (List Char) → Except Unit (List MultipartField)
  | [] => .ok []
  | f :: fs =>
    match decodeField f with
    | .error e => .error e
    | .ok fd =>
      match decodeFields fs with
      | .error e => .error e
      | .ok rest => .ok (fd :: rest)

/-- The segments kept by _decodeMultipartData (source lines 525-527):
split on the boundary, discard the first and last pieces
(data.slice(1, data.length - 1)). -/
def middleSegments (data boundary : List Char) : List (List Char) :=
  let segs := splitOnList boundary data
  (segs.drop 1).take (segs.length - 2)

/-- Zotero.Server.DataListener.prototype._decodeMultipartData
(source lines 522-554). -/
def decodeMultipartData (data boundary : List Char) :
    Except Unit (List MultipartField) :=
  decodeFields (middleSegments data boundary)

/-! ## decodeQueryString -/

/-- Value of a hexadecimal digit, `none` for other characters. -/
def hexVal (c : Char) : Option Nat :=
  if '0' ≤ c ∧ c ≤ '9' then some (c.toNat - 48)
  else if 'A' ≤ c ∧ c ≤ 'F' then some (c.toNat - 55)
  else if 'a' ≤ c ∧ c ≤ 'f' then some (c.toNat - 87)
  else none

/-- Modelled from the spec: the JS builtin decodeURIComponent (a platform
function, not part of this repository), restricted to percent-decoding of
ASCII escapes; other characters pass through unchanged. -/
def decodeURIComponent : List Char → List Char
  | [] => []
  | '%' :: h :: lo :: rest =>
    match hexVal h, hexVal lo with
    | some hv, some lv => Char.ofNat (hv * 16 + lv) :: decodeURIComponent rest
    | _, _ => '%' :: decodeURIComponent (h :: lo :: rest)
  | c :: rest => c :: decodeURIComponent rest

/-- Zotero.Server.decodeQueryString (source lines 93-101): split on the
ampersand; for each piece, the key is substr(0, indexOf("=")) and the
value substr(indexOf("=") + 1), both percent-decoded, written into one
object. With no equals sign, indexOf yields -1: the key is the empty
string and the value the whole piece. -/
def decodeQueryString (queryString : List Char) : List (List Char × List Char) :=
  let splitData := splitOnChar '&' queryString
  splitData.foldl
    (fun decodedData v =>
      let splitIndex := jsIndexOfChar v '='
      objSet decodedData
        (decodeURIComponent (jsSubstrLen v 0 splitIndex))
        (decodeURIComponent (jsSubstrFrom v (splitIndex + 1))))
    []

/-! ## A conforming HTTP client, modelled from the spec -/

/-- Modelled from the spec: a conforming client reads the status code as
the digits after the first space of the status line. -/
def statusOfResponse (resp : List Char) : Nat :=
  natOfDigits (((resp.dropWhile (· ≠ ' ')).drop 1).takeWhile Char.isDigit)

/-- Modelled from the spec: a conforming client takes everything after the
first blank line as the body. -/
def clientBodyOf (resp : List Char) : Option (List Char) :=
  (splitFirstAt "\r\n\r\n".data resp).map (·.2)

/-- Modelled from the spec: full client-side parse of a response into the
status code, the header lines (split at CRLF before the first blank
line), and the body. -/
def clientParse (resp : List Char) : Option (Nat × List (List Char) × List Char) :=
  (splitFirstAt "\r\n\r\n".data resp).map
    (fun pr => (statusOfResponse resp, splitOnList "\r\n".data pr.1, pr.2))

/-- CRLF-join of a list of header lines (no trailing separator). -/
def joinLines : List (List Char) → List Char
  | [] => []
  | [l] => l
  | l :: ls => l ++ '\r' :: '\n' :: joinLines ls

/-- The header lines of a generated response, line by line; proved below to
be exactly what a conforming client recovers from the wire bytes of
generateResponse. -/
def respLines (cfg : ServerConfig) (origin : Option (List Char)) (status : Nat)
    (contentType body : Option (List Char)) : List (List Char) :=
  ["HTTP/1.0 ".data ++ natChars status ++ " ".data
     ++ (responseCodes status).getD "undefined".data]
  ++ (if cfg.isServer then [] else
      ["X-Zotero-Version: ".data ++ cfg.version,
       "X-Zotero-Connector-API-Version: ".data ++ cfg.connectorApiVersion]
      ++ (if origin = some cfg.bookmarkletOrigin ∨ origin = some cfg.httpBookmarkletOrigin then
            ["Access-Control-Allow-Origin: ".data ++ origin.getD [],
             "Access-Control-Allow-Methods: POST, GET, OPTIONS".data,
             "Access-Control-Allow-Headers: Content-Type,X-Zotero-Connector-API-Version,X-Zotero-Version".data]
          else []))
  ++ (if jsTruthy contentType then ["Content-Type: ".data ++ contentType.getD []] else [])
  ++ (if jsTruthy body then [] else ["Content-Length: 0".data])

/-! ## Concrete sample inputs used by the claim instances -/

/-- A well-formed POST request: path /a, Content-Length 3, body abc. -/
def samplePostRequest : List Char :=
  "POST /a HTTP/1.0\r\nHost: localhost\r\nContent-Length: 3\r\n\r\nabc".data

/-- A registry with the single path /a. -/
def sampleEndpoints : List (List Char) := ["/a".data]

/-- Cumulative chunk boundaries: the byte offset at which each chunk of a
delivery ends, counted from `p`. -/
def boundarySums (p : Nat) : List (List Char) → List Nat
  | [] => []
  | c :: cs => (p + c.length) :: boundarySums (p + c.length) cs

/-- Connection state after the first `p` bytes of the sample request are
delivered as a single chunk. -/
def prefixState (p : Nat) : DataListener :=
  onDataAvailable stdConfig sampleEndpoints {} (samplePostRequest.take p)

/-- A two-field multipart/form-data body with boundary XYZ and CRLF line
endings, fields named a and b with bodies v1 and v2. -/
def multipartTwoFields : List Char :=
  ("--XYZ\r\nContent-Disposition: form-data; name=\"a\"\r\n\r\nv1\r\n--XYZ\r\nContent-Disposition: form-data; name=\"b\"\r\n\r\nv2\r\n--XYZ--").data

/-- A one-field multipart/form-data body whose segment uses only Unix
line endings, so its blank-line separator is a bare double newline. -/
def multipartUnixOnly : List Char :=
  "--XYZ\nContent-Disposition: form-data; name=a\n\nhello\n--XYZ--".data

/-! ## Helper lemmas: decimal rendering and status-line parsing -/

theorem digitChar_isDigit {m : Nat} (h : m < 10) : (digitChar m).isDigit = true := by
  interval_cases m <;> decide

theorem digitChar_toNat {m : Nat} (h : m < 10) : (digitChar m).toNat = 48 + m := by
  interval_cases m <;> decide

theorem natCharsAux_digits : ∀ fuel n c, c ∈ natCharsAux fuel n → c.isDigit = true := by
  intro fuel
  induction fuel with
  | zero => intro n c hc; simp [natCharsAux] at hc
  | succ fu ih =>
    intro n c hc
    by_cases h : n < 10
    · simp [natCharsAux, h] at hc
      subst hc; exact digitChar_isDigit h
    · simp [natCharsAux, h] at hc
      rcases hc with hc | hc
      · exact ih _ _ hc
      · subst hc; exact digitChar_isDigit (Nat.mod_lt _ (by omega))

theorem natChars_digits {n : Nat} {c : Char} (hc : c ∈ natChars n) : c.isDigit = true :=
  natCharsAux_digits _ _ _ hc

theorem natOfDigits_append_one (A : List Char) (d : Char) :
    natOfDigits (A ++ [d]) = natOfDigits A * 10 + (d.toNat - 48) := by
  simp [natOfDigits, List.foldl_append]

theorem natCharsAux_roundtrip : ∀ fuel n, n < fuel → natOfDigits (natCharsAux fuel n) = n := by
  intro fuel
  induction fuel with
  | zero => intro n h; omega
  | succ fu ih =>
    intro n h
    by_cases h10 : n < 10
    · simp [natCharsAux, h10, natOfDigits, digitChar_toNat h10]
    · have hdiv : n / 10 < fu := by
        have := Nat.div_lt_self (by omega : 0 < n) (by omega : 1 < 10)
        omega
      simp [natCharsAux, h10, natOfDigits_append_one, ih _ hdiv,
        digitChar_toNat (Nat.mod_lt _ (by omega : (0:Nat) < 10))]
      omega

theorem natOfDigits_natChars (n : Nat) : natOfDigits (natChars n) = n :=
  natCharsAux_roundtrip _ _ (Nat.lt_succ_self n)

theorem takeWhile_digits_append (A : List Char) (hA : ∀ c ∈ A, c.isDigit = true)
    (y : List Char) :
    (A ++ ' ' :: y).takeWhile Char.isDigit = A := by
  induction A with
  | nil => simp [List.takeWhile]
  | cons c cs ih =>
    have hc := hA c (by simp)
    simp only [List.cons_append, List.takeWhile_cons, hc, if_true]
    have := ih (fun d hd => hA d (by simp [hd]))
    simp [this]

/-- The status code a conforming client reads back from any generated
response is the status passed to the builder. -/
theorem statusOfResponse_generateResponse (cfg : ServerConfig) (o : Option (List Char))
    (st : Nat) (ct bod : Option (List Char)) :
    statusOfResponse (generateResponse cfg o st ct bod) = st := by
  have h1 : ∀ x : List Char,
      ("HTTP/1.0 ".data ++ x).dropWhile (· ≠ ' ') = ' ' :: x := fun _ => rfl
  have h2 : generateResponse cfg o st ct bod
      = "HTTP/1.0 ".data ++ (natChars st ++ (' ' :: ((responseCodes st).getD "undefined".data
          ++ "\r\n".data
          ++ (if cfg.isServer then [] else
              "X-Zotero-Version: ".data ++ cfg.version ++ "\r\n".data
              ++ "X-Zotero-Connector-API-Version: ".data ++ cfg.connectorApiVersion ++ "\r\n".data
              ++ (if o = some cfg.bookmarkletOrigin ∨ o = some cfg.httpBookmarkletOrigin then
                    "Access-Control-Allow-Origin: ".data ++ o.getD [] ++ "\r\n".data
                    ++ "Access-Control-Allow-Methods: POST, GET, OPTIONS\r\n".data
                    ++ "Access-Control-Allow-Headers: Content-Type,X-Zotero-Connector-API-Version,X-Zotero-Version\r\n".data
                  else []))
          ++ (if jsTruthy ct then "Content-Type: ".data ++ ct.getD [] ++ "\r\n".data else [])
          ++ (if jsTruthy bod then "\r\n".data ++ bod.getD []
              else "Content-Length: 0\r\n\r\n".data)))) := by
    simp [generateResponse, List.append_assoc]
  rw [statusOfResponse, h2, h1]
  simp only [List.drop_succ_cons, List.drop_zero]
  rw [takeWhile_digits_append _ (fun c hc => natChars_digits hc)]
  exact natOfDigits_natChars st

/-! ## Helper lemmas: occurrence search and splitting -/

theorem startsWithL_append_self (s t : List Char) : startsWithL s (s ++ t) = true := by
  induction s with
  | nil => rfl
  | cons c cs ih => simp [startsWithL, ih]

theorem startsWithL_true_iff (s l : List Char) :
    startsWithL s l = true ↔ ∃ t, l = s ++ t := by
  induction s generalizing l with
  | nil =>
    simp [startsWithL]
  | cons p ps ih =>
    cases l with
    | nil => simp [startsWithL]
    | cons c cs =>
      simp only [startsWithL, Bool.and_eq_true, beq_iff_eq, ih]
      constructor
      · rintro ⟨rfl, t, rfl⟩; exact ⟨t, rfl⟩
      · rintro ⟨t, ht⟩
        injection ht with h1 h2
        exact ⟨h1.symm, t, h2⟩

theorem splitFirstAt_sep_append (c : Char) (tl b : List Char) :
    splitFirstAt (c :: tl) ((c :: tl) ++ b) = some ([], b) := by
  rw [show ((c :: tl) ++ b) = c :: (tl ++ b) from rfl, splitFirstAt]
  rw [if_pos (show startsWithL (c :: tl) (c :: (tl ++ b)) = true from
        startsWithL_append_self (c :: tl) b)]
  simp [List.drop_left]

theorem splitFirstAt_prepend (hd : Char) (tl l rest : List Char) (h : hd ∉ l) :
    splitFirstAt (hd :: tl) (l ++ rest)
      = (splitFirstAt (hd :: tl) rest).map (fun pr => (l ++ pr.1, pr.2)) := by
  induction l with
  | nil =>
    cases hres : splitFirstAt (hd :: tl) rest with
    | none => simp [hres]
    | some pr => simp [hres]
  | cons c cs ih =>
    have hc : c ≠ hd := fun hh => h (by simp [hh])
    have hcs : hd ∉ cs := fun hh => h (by simp [hh])
    have hsw : startsWithL (hd :: tl) (c :: (cs ++ rest)) = false := by
      simp [startsWithL, Ne.symm hc]
    simp only [List.cons_append, splitFirstAt, List.append_eq, hsw,
      Bool.false_eq_true, if_false]
    rw [ih hcs]
    cases hres : splitFirstAt (hd :: tl) rest with
    | none => simp
    | some pr => simp

theorem splitFirstAt_crlf2_joint (c : Char) (rest : List Char) (h : c ≠ '\r') :
    splitFirstAt "\r\n\r\n".data ('\r' :: '\n' :: c :: rest)
      = (splitFirstAt "\r\n\r\n".data (c :: rest)).map
          (fun pr => ('\r' :: '\n' :: pr.1, pr.2)) := by
  have h1 : startsWithL "\r\n\r\n".data ('\r' :: '\n' :: c :: rest) = false := by
    show startsWithL ['\r', '\n', '\r', '\n'] _ = false
    simp [startsWithL, Ne.symm h]
  have h2 : startsWithL "\r\n\r\n".data ('\n' :: c :: rest) = false := by
    show startsWithL ['\r', '\n', '\r', '\n'] _ = false
    simp [startsWithL]
  rw [show ('\r' :: '\n' :: c :: rest) = '\r' :: ('\n' :: c :: rest) from rfl,
    splitFirstAt, if_neg (by simp [h1])]
  rw [show splitFirstAt "\r\n\r\n".data ('\n' :: c :: rest)
        = match splitFirstAt "\r\n\r\n".data (c :: rest) with
          | some (a, b) => some ('\n' :: a, b)
          | none => none by
    rw [show ('\n' :: c :: rest) = '\n' :: (c :: rest) from rfl,
      splitFirstAt, if_neg (by simp [h2])]]
  cases hres : splitFirstAt "\r\n\r\n".data (c :: rest) with
  | none => simp [hres]
  | some pr => simp [hres]

theorem splitFirstAt_crlf2_prepend (l rest : List Char) (h : '\r' ∉ l) :
    splitFirstAt "\r\n\r\n".data (l ++ rest)
      = (splitFirstAt "\r\n\r\n".data rest).map (fun pr => (l ++ pr.1, pr.2)) := by
  rw [show ("\r\n\r\n".data : List Char) = '\r' :: ['\n', '\r', '\n'] from rfl]
  exact splitFirstAt_prepend _ _ _ _ h

theorem joinLines_cons_exists (x : List Char) (xs : List (List Char)) :
    ∃ t, joinLines (x :: xs) = x ++ t := by
  cases xs with
  | nil => exact ⟨[], by simp [joinLines]⟩
  | cons y ys => exact ⟨'\r' :: '\n' :: joinLines (y :: ys), rfl⟩

/-- Splitting at the first blank line recovers the CRLF-joined header lines
and the body, whenever every line is nonempty and free of carriage
returns. -/
theorem splitFirstAt_joinLines (lines : List (List Char)) (b : List Char)
    (hne : lines ≠ [])
    (hcl : ∀ l ∈ lines, l ≠ [] ∧ '\r' ∉ l) :
    splitFirstAt "\r\n\r\n".data (joinLines lines ++ "\r\n\r\n".data ++ b)
      = some (joinLines lines, b) := by
  induction lines with
  | nil => exact absurd rfl hne
  | cons l ls ih =>
    cases ls with
    | nil =>
      have hl := (hcl l (by simp)).2
      show splitFirstAt "\r\n\r\n".data (l ++ "\r\n\r\n".data ++ b) = some (l, b)
      rw [List.append_assoc, splitFirstAt_crlf2_prepend l _ hl,
        show ("\r\n\r\n".data : List Char) ++ b = ('\r' :: ['\n', '\r', '\n']) ++ b from rfl,
        splitFirstAt_sep_append]
      simp
    | cons l2 ls2 =>
      have hl := (hcl l (by simp)).2
      have hl2ne := (hcl l2 (by simp)).1
      have hl2cl := (hcl l2 (by simp)).2
      obtain ⟨t, ht⟩ := joinLines_cons_exists l2 ls2
      obtain ⟨c, l2', rfl⟩ : ∃ c l2', l2 = c :: l2' := by
        cases l2 with
        | nil => exact absurd rfl hl2ne
        | cons c l2' => exact ⟨c, l2', rfl⟩
      have hcr : c ≠ '\r' := fun hh => hl2cl (by simp [hh])
      have hrec := ih (by simp) (fun x hx => hcl x (by simp [hx]))
      show splitFirstAt "\r\n\r\n".data
          ((l ++ '\r' :: '\n' :: joinLines ((c :: l2') :: ls2)) ++ "\r\n\r\n".data ++ b)
        = some (l ++ '\r' :: '\n' :: joinLines ((c :: l2') :: ls2), b)
      rw [ht] at hrec ⊢
      rw [List.append_assoc, List.append_assoc, splitFirstAt_crlf2_prepend l _ hl]
      rw [show ('\r' :: '\n' :: (c :: l2' ++ t) ++ ("\r\n\r\n".data ++ b))
            = '\r' :: '\n' :: c :: (l2' ++ t ++ ("\r\n\r\n".data ++ b)) by simp]
      rw [splitFirstAt_crlf2_joint c _ hcr]
      rw [show (c :: (l2' ++ t ++ ("\r\n\r\n".data ++ b)))
            = (c :: l2' ++ t) ++ "\r\n\r\n".data ++ b by simp]
      rw [hrec]
      simp

theorem splitFirstAt_crlf_none (l : List Char) (h : '\r' ∉ l) :
    splitFirstAt "\r\n".data l = none := by
  induction l with
  | nil => rfl
  | cons c cs ih =>
    have hc : c ≠ '\r' := fun hh => h (by simp [hh])
    have hcs : '\r' ∉ cs := fun hh => h (by simp [hh])
    rw [show (c :: cs) = c :: cs from rfl, splitFirstAt,
      if_neg (by show ¬ startsWithL ['\r', '\n'] _ = true; simp [startsWithL, Ne.symm hc]),
      ih hcs]

theorem splitFirstAt_crlf_cons (rest : List Char) :
    splitFirstAt "\r\n".data ('\r' :: '\n' :: rest) = some ([], rest) := by
  rw [show ("\r\n".data : List Char) = '\r' :: ['\n'] from rfl,
    show ('\r' :: '\n' :: rest) = ('\r' :: ['\n']) ++ rest from rfl,
    splitFirstAt_sep_append]

theorem splitFirstAt_crlf_prepend (l rest : List Char) (h : '\r' ∉ l) :
    splitFirstAt "\r\n".data (l ++ rest)
      = (splitFirstAt "\r\n".data rest).map (fun pr => (l ++ pr.1, pr.2)) := by
  rw [show ("\r\n".data : List Char) = '\r' :: ['\n'] from rfl]
  exact splitFirstAt_prepend _ _ _ _ h

theorem splitOnListAux_joinLines :
    ∀ (lines : List (List Char)) (fuel : Nat), lines ≠ [] →
      (∀ l ∈ lines, '\r' ∉ l) → lines.length ≤ fuel + 1 →
      splitOnListAux fuel "\r\n".data (joinLines lines) = lines := by
  intro lines
  induction lines with
  | nil => intro fuel h; exact absurd rfl h
  | cons l ls ih =>
    intro fuel _ hcl hlen
    cases ls with
    | nil =>
      have hnone : splitFirstAt "\r\n".data (joinLines [l]) = none :=
        splitFirstAt_crlf_none l (hcl l (by simp))
      cases fuel with
      | zero => rfl
      | succ f => simp [splitOnListAux, joinLines] at hnone ⊢; simp [hnone]
    | cons l2 ls2 =>
      cases fuel with
      | zero => simp at hlen
      | succ f =>
        have hstep : splitFirstAt "\r\n".data (joinLines (l :: l2 :: ls2))
            = some (l, joinLines (l2 :: ls2)) := by
          show splitFirstAt "\r\n".data (l ++ '\r' :: '\n' :: joinLines (l2 :: ls2)) = _
          rw [splitFirstAt_crlf_prepend l _ (hcl l (by simp)),
            splitFirstAt_crlf_cons]
          simp
        rw [splitOnListAux, hstep]
        show l :: splitOnListAux f "\r\n".data (joinLines (l2 :: ls2)) = l :: l2 :: ls2
        rw [ih f (by simp) (fun x hx => hcl x (by simp [hx]))
          (by simp only [List.length_cons] at hlen ⊢; omega)]

theorem joinLines_length_bound :
    ∀ lines : List (List Char), lines.length ≤ (joinLines lines).length + 2 := by
  intro lines
  induction lines with
  | nil => simp
  | cons l ls ih =>
    cases ls with
    | nil => simp [joinLines]
    | cons l2 ls2 =>
      show (l2 :: ls2).length + 1 ≤ (l ++ '\r' :: '\n' :: joinLines (l2 :: ls2)).length + 2
      simp only [List.length_append, List.length_cons] at ih ⊢
      omega

/-- Splitting the CRLF-join of carriage-return-free lines on CRLF recovers
the lines. -/
theorem splitOnList_joinLines (lines : List (List Char)) (hne : lines ≠ [])
    (hcl : ∀ l ∈ lines, '\r' ∉ l) :
    splitOnList "\r\n".data (joinLines lines) = lines :=
  splitOnListAux_joinLines lines _ hne hcl
    (le_trans (joinLines_length_bound lines) (by omega))

theorem idxOfStr_none_iff (l sub : List Char) :
    idxOfStr l sub = none ↔ ¬ ∃ x y, l = x ++ sub ++ y := by
  induction l with
  | nil =>
    by_cases hsw : startsWithL sub [] = true
    · obtain ⟨t, ht⟩ := (startsWithL_true_iff _ _).mp hsw
      have hsub : sub = [] := by
        cases sub with
        | nil => rfl
        | cons a as => simp at ht
      subst hsub
      constructor
      · intro hcontra
        simp [idxOfStr, startsWithL] at hcontra
      · intro hno
        exact absurd ⟨[], [], rfl⟩ hno
    · have hsubne : sub ≠ [] := by
        intro h; subst h; simp [startsWithL] at hsw
      constructor
      · rintro _ ⟨x, y, hxy⟩
        have h0 : x ++ sub ++ y = [] := hxy.symm
        rcases List.append_eq_nil.mp h0 with ⟨h1, h2⟩
        exact hsubne (List.append_eq_nil.mp h1).2
      · intro _
        simp only [idxOfStr, hsw, Bool.false_eq_true, if_false]
  | cons c cs ih =>
    by_cases hsw : startsWithL sub (c :: cs) = true
    · obtain ⟨t, ht⟩ := (startsWithL_true_iff _ _).mp hsw
      constructor
      · intro hcontra
        simp only [idxOfStr, hsw, if_true] at hcontra
        exact Option.noConfusion hcontra
      · intro hno
        exact absurd ⟨[], t, by simpa using ht⟩ hno
    · simp only [idxOfStr, hsw, Bool.false_eq_true, if_false,
        Option.map_eq_none', ih]
      constructor
      · rintro hno ⟨x, y, hxy⟩
        cases x with
        | nil =>
          exact hsw ((startsWithL_true_iff _ _).mpr ⟨y, by simpa using hxy⟩)
        | cons a as =>
          injection hxy with h1 h2
          exact hno ⟨as, y, h2⟩
      · rintro hno ⟨x, y, hxy⟩
        exact hno ⟨c :: x, y, by simp [hxy]⟩

theorem jsIndexOfStr_ge (l sub : List Char) : -1 ≤ jsIndexOfStr l sub := by
  unfold jsIndexOfStr
  rcases h : idxOfStr l sub with _ | n
  · simp [h]
  · simp [h]
    omega

theorem jsIndexOfStr_neg1_iff (l sub : List Char) :
    jsIndexOfStr l sub = -1 ↔ idxOfStr l sub = none := by
  unfold jsIndexOfStr
  rcases h : idxOfStr l sub with _ | n
  · simp [h]
  · simp [h]

set_option maxRecDepth 100000
set_option synthInstance.maxSize 1024

/-- The wire bytes of a generated response are exactly the CRLF-joined
header lines, a blank line, and the body (empty when falsy). -/
theorem generateResponse_eq_join (cfg : ServerConfig) (o : Option (List Char))
    (st : Nat) (ct bod : Option (List Char)) :
    generateResponse cfg o st ct bod
      = joinLines (respLines cfg o st ct bod) ++ "\r\n\r\n".data
          ++ (if jsTruthy bod then bod.getD [] else []) := by
  simp only [generateResponse, respLines]
  split_ifs
  all_goals simp only [List.cons_append, List.nil_append, List.append_nil]
  all_goals simp only [joinLines]
  all_goals simp only [List.append_assoc, List.cons_append, List.nil_append]

theorem responseCodes_reason_clean (st : Nat) :
    '\r' ∉ (responseCodes st).getD "undefined".data := by
  unfold responseCodes
  split <;> decide

theorem statusLine_clean (st : Nat) :
    '\r' ∉ "HTTP/1.0 ".data ++ natChars st ++ " ".data
      ++ (responseCodes st).getD "undefined".data := by
  intro hmem
  simp only [List.mem_append] at hmem
  rcases hmem with ((h | h) | h) | h
  · simp at h
  · have := natChars_digits h
    simp at this
  · simp at h
  · exact responseCodes_reason_clean st h

theorem respLines_ne_nil (cfg : ServerConfig) (o : Option (List Char)) (st : Nat)
    (ct bod : Option (List Char)) : respLines cfg o st ct bod ≠ [] := by
  simp [respLines]

theorem respLines_clean (o : Option (List Char)) (st : Nat)
    (ct bod : Option (List Char)) (hct : ∀ c ∈ ct.getD [], c ≠ '\r') :
    ∀ l ∈ respLines stdConfig o st ct bod, l ≠ [] ∧ '\r' ∉ l := by
  intro l hl
  have hsrv : stdConfig.isServer = false := rfl
  simp only [respLines, hsrv, Bool.false_eq_true, if_false, List.cons_append,
    List.nil_append] at hl
  split_ifs at hl with h1 h2 h3 <;>
    simp only [List.mem_cons, List.mem_append, List.not_mem_nil, or_false,
      false_or, List.mem_singleton] at hl
  all_goals try rcases h1 with rfl | rfl
  all_goals
    repeat'
      first
      | (rcases hl with hl | hl)
      | (subst hl)
  all_goals
    first
    | (refine ⟨by simp, fun hmem => ?_⟩
       simp at hmem
       rcases hmem with hmem | hmem
       · exact absurd (natChars_digits hmem) (by decide)
       · exact absurd hmem (responseCodes_reason_clean st))
    | exact ⟨by simp, by decide⟩
    | (refine ⟨by simp, fun hmem => ?_⟩
       simp at hmem
       exact absurd rfl (hct _ hmem))

/-- What a conforming client recovers from a generated response in desktop
mode: the status, the exact header lines, and the body (empty when the
body argument was falsy). -/
theorem clientParse_generateResponse (o : Option (List Char)) (st : Nat)
    (ct bod : Option (List Char)) (hct : ∀ c ∈ ct.getD [], c ≠ '\r') :
    clientParse (generateResponse stdConfig o st ct bod)
      = some (st, respLines stdConfig o st ct bod,
          if jsTruthy bod then bod.getD [] else []) := by
  have hclean := respLines_clean o st ct bod hct
  have hsplit : splitFirstAt "\r\n\r\n".data (generateResponse stdConfig o st ct bod)
      = some (joinLines (respLines stdConfig o st ct bod),
          if jsTruthy bod then bod.getD [] else []) := by
    rw [generateResponse_eq_join]
    exact splitFirstAt_joinLines _ _ (respLines_ne_nil _ _ _ _ _) hclean
  rw [clientParse, hsplit]
  simp only [Option.map_some']
  rw [statusOfResponse_generateResponse,
    splitOnList_joinLines _ (respLines_ne_nil _ _ _ _ _) (fun l hl => (hclean l hl).2)]

/-- The body a conforming client recovers from a generated response. -/
theorem clientBodyOf_generateResponse (o : Option (List Char)) (st : Nat)
    (ct bod : Option (List Char)) (hct : ∀ c ∈ ct.getD [], c ≠ '\r') :
    clientBodyOf (generateResponse stdConfig o st ct bod)
      = some (if jsTruthy bod then bod.getD [] else []) := by
  have hclean := respLines_clean o st ct bod hct
  have hsplit : splitFirstAt "\r\n\r\n".data (generateResponse stdConfig o st ct bod)
      = some (joinLines (respLines stdConfig o st ct bod),
          if jsTruthy bod then bod.getD [] else []) := by
    rw [generateResponse_eq_join]
    exact splitFirstAt_joinLines _ _ (respLines_ne_nil _ _ _ _ _) hclean
  rw [clientBodyOf, hsplit]
  rfl

/-! ## Helper lemmas: the connection state machine -/

theorem extractOrigin_eq (cfg : ServerConfig) (s : DataListener) :
    ∃ o, extractOrigin cfg s = { s with origin := o } := by
  unfold extractOrigin
  by_cases hsrv : cfg.isServer = true
  · simp only [hsrv, if_true]
    exact ⟨s.origin, rfl⟩
  · simp only [hsrv, Bool.false_eq_true, if_false]
    cases h1 : headerCapture "origin:".data false tokenChar s.header with
    | some o => exact ⟨some o, rfl⟩
    | none =>
      cases h2 : headerCapture "zotero-bookmarklet:".data false tokenChar s.header with
      | some o => exact ⟨some "https://www.zotero.org".data, rfl⟩
      | none => exact ⟨s.origin, rfl⟩

/-- jsTruthy of a nonempty concrete body. -/
theorem jsTruthy_some_cons (c : Char) (cs : List Char) :
    jsTruthy (some (c :: cs)) = true := rfl

/-! ## Helper lemmas: the multipart decoder -/

theorem decodeField_error_iff (f : List Char) :
    decodeField f = .error () ↔ idxOfStr (jsTrim f) "\r\n\r\n".data = none := by
  have hnl : ("\n\n".data : List Char) = ['\n', '\n'] := rfl
  have hwl : ("\r\n\r\n".data : List Char) = ['\r', '\n', '\r', '\n'] := rfl
  simp only [decodeField, hnl, hwl]
  rcases hw : idxOfStr (jsTrim f) ['\r', '\n', '\r', '\n'] with _ | w
  · have hwi : jsIndexOfStr (jsTrim f) ['\r', '\n', '\r', '\n'] = -1 := by
      unfold jsIndexOfStr; rw [hw]
    have hu := jsIndexOfStr_ge (jsTrim f) ['\n', '\n']
    rw [hwi]
    rw [if_neg (by rintro ⟨h1, _⟩; omega)]
    rw [if_neg (by simp)]
    simp
  · have hwi : jsIndexOfStr (jsTrim f) ['\r', '\n', '\r', '\n'] = Int.ofNat w := by
      unfold jsIndexOfStr; rw [hw]
    rw [hwi]
    split_ifs with h1 h2
    · simp
    · simp
    · exact absurd (by simp : (Int.ofNat w : Int) ≠ -1) h2

theorem decodeFields_error_iff (fs : List (List Char)) :
    decodeFields fs = .error () ↔ ∃ f ∈ fs, decodeField f = .error () := by
  induction fs with
  | nil => simp [decodeFields]
  | cons f fs ih =>
    cases hf : decodeField f with
    | error e =>
      cases e
      constructor
      · intro _; exact ⟨f, by simp, hf⟩
      · intro _; simp [decodeFields, hf]
    | ok fd =>
      cases hfs : decodeFields fs with
      | error e =>
        cases e
        constructor
        · intro _
          obtain ⟨g, hg, hge⟩ := ih.mp hfs
          exact ⟨g, by simp [hg], hge⟩
        · intro _; simp [decodeFields, hf, hfs]
      | ok rest =>
        constructor
        · intro hcontra
          simp [decodeFields, hf, hfs] at hcontra
        · rintro ⟨g, hg, hge⟩
          rcases List.mem_cons.mp hg with rfl | hg
          · rw [hf] at hge; exact absurd hge (by simp)
          · have hx : decodeFields fs = .error () := ih.mpr ⟨g, hg, hge⟩
            rw [hfs] at hx; exact absurd hx (by simp)

/-! ## Helper lemmas: decodeQueryString -/

theorem splitFirstAt_single_none (c : Char) (v : List Char) (h : c ∉ v) :
    splitFirstAt [c] v = none := by
  induction v with
  | nil => rfl
  | cons d ds ih =>
    have hd : c ≠ d := fun hh => h (by simp [hh])
    have hds : c ∉ ds := fun hh => h (by simp [hh])
    rw [show (d :: ds) = d :: ds from rfl, splitFirstAt,
      if_neg (by simp [startsWithL, hd]), ih hds]

theorem splitOnListAux_no_sep (fuel : Nat) (sep l : List Char)
    (h : splitFirstAt sep l = none) : splitOnListAux fuel sep l = [l] := by
  cases fuel with
  | zero => rfl
  | succ f => rw [splitOnListAux, h]

theorem splitOnChar_no_sep (c : Char) (v : List Char) (h : c ∉ v) :
    splitOnChar c v = [v] :=
  splitOnListAux_no_sep _ _ _ (splitFirstAt_single_none c v h)

theorem splitOnChar_two (c : Char) (a b : List Char) (ha : c ∉ a) (hb : c ∉ b) :
    splitOnChar c (a ++ c :: b) = [a, b] := by
  have hsplit : splitFirstAt [c] (a ++ c :: b) = some (a, b) := by
    rw [show (c :: b : List Char) = [c] ++ b from rfl, splitFirstAt_prepend c [] a _ ha,
      splitFirstAt_sep_append]
    simp
  show splitOnListAux ((a ++ c :: b).length + 1) [c] (a ++ c :: b) = [a, b]
  rw [splitOnListAux, hsplit]
  show a :: splitOnListAux (a ++ c :: b).length [c] b = [a, b]
  rw [splitOnListAux_no_sep _ _ _ (splitFirstAt_single_none c b hb)]

theorem jsIndexOfChar_not_mem (v : List Char) (c : Char) (h : c ∉ v) :
    jsIndexOfChar v c = -1 := by
  unfold jsIndexOfChar
  rw [jsIndexOfStr_neg1_iff]
  rw [idxOfStr_none_iff]
  rintro ⟨x, y, hxy⟩
  exact h (by simp [hxy])

/-! ## Claim theorems -/

set_option maxHeartbeats 2000000

/-- C1, counterexample. Chunking invariance fails: delivering the
well-formed POST request one byte at a time yields a different final
connection state than delivering it whole. Whole delivery dispatches the
endpoint once with body abc; byte-at-a-time delivery finishes the header
at the bare carriage return of the split terminator, leaks the final
newline into the body, and dispatches twice with the shifted body
(newline, a, b). -/
theorem chunking_invariance_counterexample :
    feed stdConfig sampleEndpoints {} (samplePostRequest.map (fun c => [c]))
      ≠ feed stdConfig sampleEndpoints {} [samplePostRequest]
    ∧ (feed stdConfig sampleEndpoints {} [samplePostRequest]).dispatched
        = [("POST".data, some "abc".data)]
    ∧ (feed stdConfig sampleEndpoints {} (samplePostRequest.map (fun c => [c]))).dispatched
        = [("POST".data, some "\nab".data), ("POST".data, some "\nab".data)] := by
  refine ⟨?_, by decide, by decide⟩
  decide

/-- Processing a chunk that contains no header terminator and does not
complete a terminator split across chunks only appends it to the header
buffer. -/
theorem onData_header_append (cfg : ServerConfig) (eps : List (List Char))
    (s : DataListener) (seg : List Char)
    (hf : s.headerFinished = false)
    (h1 : jsIndexOfStr seg "\r\n\r\n".data = -1)
    (h2 : jsIndexOfStr seg "\n\n".data = -1)
    (h3 : ¬((!s.header.isEmpty) = true ∧ s.header.getLast? = some '\n' ∧
        (seg.head? = some '\n' ∨ seg.head? = some '\r'))) :
    onDataAvailable cfg eps s seg = { s with header := s.header ++ seg } := by
  simp only [onDataAvailable, hf, h1, h2]
  simp only [Bool.false_eq_true, if_false]
  rw [if_neg (by simp)]
  rw [if_neg h3]
  exact if_neg (by simp)

/-- An occurrence-free search transfers to any inner segment. -/
theorem jsIndexOfStr_neg1_of_parts (big x seg y sub : List Char)
    (hb : jsIndexOfStr big sub = -1) (he : big = x ++ seg ++ y) :
    jsIndexOfStr seg sub = -1 := by
  rw [jsIndexOfStr_neg1_iff] at hb ⊢
  rw [idxOfStr_none_iff] at hb ⊢
  rintro ⟨a, b, rfl⟩
  exact hb ⟨x ++ a, b ++ y, by simp [he, List.append_assoc]⟩

/-- Three-way take/drop decomposition of a prefix. -/
theorem take_decomp (l : List Char) (p q n : Nat) (h1 : p ≤ q) (h2 : q ≤ n) :
    l.take n = l.take p ++ (l.drop p).take (q - p) ++ (l.drop q).take (n - q) := by
  have e1 : l.take n = l.take q ++ (l.drop q).take (n - q) := by
    conv_lhs => rw [show n = q + (n - q) by omega]
    exact List.take_add l q (n - q)
  have e2 : l.take q = l.take p ++ (l.drop p).take (q - p) := by
    conv_lhs => rw [show q = p + (q - p) by omega]
    exact List.take_add l p (q - p)
  rw [e1, e2]

/-- The sample request is 59 bytes long. -/
theorem samplePostRequest_length : samplePostRequest.length = 59 := by decide

/-- Before the header terminator region the prefix state is pure header
accumulation. -/
theorem prefixState_header : ∀ p, p < 55 → p ≠ 52 → p ≠ 53 →
    prefixState p = { header := samplePostRequest.take p } := by
  decide

/-- The double newline never occurs in the sample request, and the full
terminator does not occur in its first 54 bytes. -/
theorem samplePostRequest_scan :
    jsIndexOfStr samplePostRequest "\n\n".data = -1
    ∧ jsIndexOfStr (samplePostRequest.take 54) "\r\n\r\n".data = -1 := by
  refine ⟨by decide, by decide⟩

/-- No position before the terminator both ends the accumulated header on
a newline and is followed by a carriage return or newline. -/
theorem samplePostRequest_no_split_trigger : ∀ p, p < 52 →
    ¬((samplePostRequest.take p).getLast? = some '\n' ∧
      ((samplePostRequest.drop p).head? = some '\n'
        ∨ (samplePostRequest.drop p).head? = some '\r')) := by
  decide

theorem take_head_of_pos (l : List Char) (k : Nat) (hk : k ≠ 0) :
    (l.take k).head? = l.head? := by
  cases l with
  | nil => simp
  | cons c cs =>
    cases k with
    | zero => exact absurd rfl hk
    | succ k => simp

/-- One good-boundary step into the body region or between body states,
settled by evaluation. -/
theorem prefixState_step_late : ∀ p, p < 59 → ∀ p', p' ≤ 59 → p < p' → 56 ≤ p' →
    p ≠ 52 → p ≠ 53 → p ≠ 55 →
    onDataAvailable stdConfig sampleEndpoints (prefixState p)
        ((samplePostRequest.drop p).take (p' - p))
      = prefixState p' := by
  decide

/-- One good-boundary step of the sample request: feeding the bytes from
offset p to offset p' onto the prefix state at p yields the prefix state
at p', for any boundaries outside the bad region. -/
theorem prefixState_step (p p' : Nat) (hlt : p < p')
    (hle : p' ≤ 59) (hp1 : p ≠ 52) (hp2 : p ≠ 53) (hp3 : p ≠ 55)
    (hq1 : p' ≠ 52) (hq2 : p' ≠ 53) (hq3 : p' ≠ 55) :
    onDataAvailable stdConfig sampleEndpoints (prefixState p)
        ((samplePostRequest.drop p).take (p' - p))
      = prefixState p' := by
  by_cases hp' : 56 ≤ p'
  · exact prefixState_step_late p (by omega) p' hle hlt hp' hp1 hp2 hp3
  · have hq54 : p' ≤ 54 := by omega
    have hple : p ≤ 51 := by omega
    rw [prefixState_header p (by omega) hp1 hp2,
      prefixState_header p' (by omega) hq1 hq2]
    have h1 : jsIndexOfStr ((samplePostRequest.drop p).take (p' - p))
        "\r\n\r\n".data = -1 :=
      jsIndexOfStr_neg1_of_parts (samplePostRequest.take 54)
        (samplePostRequest.take p) _ ((samplePostRequest.drop p').take (54 - p'))
        ("\r\n\r\n".data) samplePostRequest_scan.2
        (take_decomp samplePostRequest p p' 54 (by omega) hq54)
    have h2 : jsIndexOfStr ((samplePostRequest.drop p).take (p' - p))
        "\n\n".data = -1 := by
      refine jsIndexOfStr_neg1_of_parts samplePostRequest
        (samplePostRequest.take p) _ ((samplePostRequest.drop p').take (59 - p'))
        ("\n\n".data) samplePostRequest_scan.1 ?_
      have := take_decomp samplePostRequest p p' 59 (by omega) (by omega)
      rwa [← samplePostRequest_length, List.take_length] at this
    rw [onData_header_append _ _ _ _ rfl h1 h2 ?_]
    · congr 1
      conv_rhs => rw [show p' = p + (p' - p) by omega]
      rw [List.take_add]
    · rintro ⟨_, hlast, hhead⟩
      rw [take_head_of_pos _ _ (by omega)] at hhead
      exact samplePostRequest_no_split_trigger p (by omega) ⟨hlast, hhead⟩

/-- Delivering, from any good prefix state, a chunk list whose bytes make
up the rest of the request and whose boundaries avoid the bad region ends
in the whole-delivery state. -/
theorem feed_chunks_aux : ∀ (chunks : List (List Char)) (p : Nat),
    p ≤ 59 → p ≠ 52 → p ≠ 53 → p ≠ 55 →
    (∀ c ∈ chunks, c ≠ []) →
    chunks.flatten = samplePostRequest.drop p →
    (∀ q ∈ boundarySums p chunks, q ≠ 52 ∧ q ≠ 53 ∧ q ≠ 55) →
    feed stdConfig sampleEndpoints (prefixState p) chunks = prefixState 59 := by
  intro chunks
  induction chunks with
  | nil =>
    intro p hp _ _ _ _ hfl _
    have h59 : p = 59 := by
      have h := congrArg List.length hfl
      rw [List.flatten_nil, List.length_nil, List.length_drop,
        samplePostRequest_length] at h
      omega
    subst h59
    rfl
  | cons c cs ih =>
    intro p hp hp1 hp2 hp3 hne hfl hb
    have hcne : c ≠ [] := hne c (by simp)
    have hcpos : c.length ≠ 0 := fun hh => hcne (List.length_eq_zero.mp hh)
    have hlen : c.length + cs.flatten.length = 59 - p := by
      have h := congrArg List.length hfl
      rw [List.flatten_cons, List.length_append, List.length_drop,
        samplePostRequest_length] at h
      exact h
    have hple : p + c.length ≤ 59 := by omega
    have hbhead := hb (p + c.length) (by simp [boundarySums])
    have hc : c = (samplePostRequest.drop p).take c.length := by
      have h := congrArg (List.take c.length) hfl
      rw [List.flatten_cons, List.take_left] at h
      exact h
    have hcs : cs.flatten = samplePostRequest.drop (p + c.length) := by
      have h := congrArg (List.drop c.length) hfl
      rw [List.flatten_cons, List.drop_left] at h
      rw [h, List.drop_drop]
    show feed stdConfig sampleEndpoints (prefixState p) (c :: cs) = prefixState 59
    have hstep : onDataAvailable stdConfig sampleEndpoints (prefixState p) c
        = prefixState (p + c.length) := by
      have hcl : c = (samplePostRequest.drop p).take ((p + c.length) - p) := by
        rw [Nat.add_sub_cancel_left]
        exact hc
      conv_lhs => rw [hcl]
      exact prefixState_step p (p + c.length) (by omega) hple hp1 hp2 hp3
        hbhead.1 hbhead.2.1 hbhead.2.2
    show feed stdConfig sampleEndpoints
        (onDataAvailable stdConfig sampleEndpoints (prefixState p) c) cs
      = prefixState 59
    rw [hstep]
    exact ih (p + c.length) hple hbhead.1 hbhead.2.1 hbhead.2.2
      (fun x hx => hne x (by simp [hx])) hcs
      (fun q hq => hb q (by simp [boundarySums, hq]))

/-- C1, amended. Chunking invariance holds for the well-formed sample
POST request under every delivery into nonempty chunks whose cumulative
boundaries avoid the header-terminator region: a boundary at the start
of the terminator (52), inside its first CRLF (53), or inside its second
CRLF (55) is excluded — boundaries there drop the body bytes or prevent
terminator detection (counterexample theorem); every other chunking,
of any number of chunks, one byte at a time included where its
boundaries are good, yields the same final connection state as
delivering the request whole. -/
theorem chunking_invariance_amended (chunks : List (List Char))
    (hne : ∀ c ∈ chunks, c ≠ [])
    (hfl : chunks.flatten = samplePostRequest)
    (hb : ∀ q ∈ boundarySums 0 chunks, q ≠ 52 ∧ q ≠ 53 ∧ q ≠ 55) :
    feed stdConfig sampleEndpoints {} chunks
      = feed stdConfig sampleEndpoints {} [samplePostRequest] := by
  have h0 : prefixState 0 = ({} : DataListener) := by decide
  have h59 : feed stdConfig sampleEndpoints {} [samplePostRequest]
      = prefixState 59 := by decide
  rw [h59, ← h0]
  exact feed_chunks_aux chunks 0 (by omega) (by omega) (by omega) (by omega)
    hne (by simpa using hfl) hb

/-- C1, witness for the amended theorem: a three-chunk delivery with
boundaries 10, 20. -/
theorem chunking_invariance_amended_witness :
    feed stdConfig sampleEndpoints {}
        [samplePostRequest.take 10, (samplePostRequest.drop 10).take 10,
         samplePostRequest.drop 20]
      = feed stdConfig sampleEndpoints {} [samplePostRequest] :=
  chunking_invariance_amended
    [samplePostRequest.take 10, (samplePostRequest.drop 10).take 10,
     samplePostRequest.drop 20]
    (by decide) (by decide) (by decide)

/-- C2, counterexample. The one middle segment of this multipart body
contains a Unix blank-line separator (a double newline), yet the whole
decode throws: with no Windows separator present, windowsHeaderBoundary
is -1 and the test unixHeaderBoundary < windowsHeaderBoundary fails. -/
theorem multipart_separator_counterexample :
    decodeMultipartData multipartUnixOnly "--XYZ".data = .error ()
    ∧ ∃ f, middleSegments multipartUnixOnly "--XYZ".data = [f]
        ∧ ∃ x y, jsTrim f = x ++ "\n\n".data ++ y := by
  refine ⟨by decide, "\nContent-Disposition: form-data; name=a\n\nhello\n".data,
    by decide, "Content-Disposition: form-data; name=a".data, "hello".data, by decide⟩

/-- C3, code bug. The two-field multipart body decodes to two descriptors
in original order with the correct bodies, but the Content-Disposition
parameter loop discards the result of nameVal.split and then indexes the
raw string, so each descriptor's attribute map is the garbage
f maps-to o, space maps-to n, and no name attribute exists. -/
theorem multipart_attrs_code_bug :
    decodeMultipartData multipartTwoFields "--XYZ".data
      = .ok [⟨"Content-Disposition: form-data; name=\"a\"".data, "v1".data,
              [("f".data, some "o".data), (" ".data, some "n".data)]⟩,
             ⟨"Content-Disposition: form-data; name=\"b\"".data, "v2".data,
              [("f".data, some "o".data), (" ".data, some "n".data)]⟩]
    ∧ objGet [("f".data, some "o".data), (" ".data, some "n".data)] "name".data
        = none := by
  refine ⟨by decide, by decide⟩

/-- C4, code bug. On a handler exception the catch branch of
_processEndpoint calls _generateResponse with only the status 500 (the
text/plain and error-message arguments land on _requestFinished, which
ignores them), so the client receives a bodyless 500 with
Content-Length: 0; the error is then rethrown to the awaiter. -/
theorem endpoint_error_code_bug :
    (processEndpointCatch stdConfig { origin := none }).2 = true
    ∧ (processEndpointCatch stdConfig { origin := none }).1.written
        = [("HTTP/1.0 500 Internal Server Error\r\nX-Zotero-Version: 5.0.97\r\nX-Zotero-Connector-API-Version: 2\r\nContent-Length: 0\r\n\r\n").data]
    ∧ ∀ r ∈ (processEndpointCatch stdConfig { origin := none }).1.written,
        clientBodyOf r = some [] := by
  refine ⟨rfl, by decide, by decide⟩

/-- C5. At most one response per connection: when no response has been
sent, _requestFinished writes exactly one response, and a second
invocation leaves the state unchanged, producing no second write. -/
theorem response_at_most_once (s : DataListener) (r r' : List Char)
    (hs : s.responseSent = false) :
    (requestFinished s r).written = s.written ++ [r]
    ∧ requestFinished (requestFinished s r) r' = requestFinished s r
    ∧ (requestFinished (requestFinished s r) r').written = s.written ++ [r] := by
  simp [requestFinished, hs]

/-- C5, witness at a fresh connection with two distinct responses. -/
theorem response_at_most_once_witness :
    (requestFinished {} "R1".data).written = ([] : List (List Char)) ++ ["R1".data]
    ∧ requestFinished (requestFinished {} "R1".data) "R2".data
        = requestFinished {} "R1".data
    ∧ (requestFinished (requestFinished {} "R1".data) "R2".data).written
        = ([] : List (List Char)) ++ ["R1".data] :=
  response_at_most_once {} "R1".data "R2".data rfl

/-- C9, counterexample. The bookmarklet-denial response uses status 403,
which is absent from the responseCodes table, so its status line reads
HTTP/1.0 403 undefined rather than carrying a table reason phrase. -/
theorem reason_phrase_counterexample :
    (generateResponse stdConfig (some "https://www.zotero.org".data) 403
        (some "text/plain".data)
        (some "Access forbidden to bookmarklet\n".data)).takeWhile (· != '\r')
      = "HTTP/1.0 403 undefined".data
    ∧ responseCodes 403 = none := by
  refine ⟨by decide, rfl⟩

/-- C9, amended. For every status in the fixed table, every generated
response's status line is HTTP/1.0 followed by the code and the table's
reason phrase; the bookmarklet 403 lies outside the table (previous
theorem). -/
theorem reason_phrase_amended (cfg : ServerConfig) (o : Option (List Char))
    (st : Nat) (ct bod : Option (List Char))
    (hst : st ∈ [200, 201, 204, 300, 400, 404, 409, 412, 500, 501, 504]) :
    ∃ r, responseCodes st = some r
      ∧ (generateResponse cfg o st ct bod).takeWhile (· != '\r')
          = "HTTP/1.0 ".data ++ natChars st ++ " ".data ++ r := by
  fin_cases hst <;> exact ⟨_, rfl, rfl⟩

/-- C9, witness for the amended theorem at status 200. -/
theorem reason_phrase_amended_witness :
    ∃ r, responseCodes 200 = some r
      ∧ (generateResponse stdConfig none 200 none none).takeWhile (· != '\r')
          = "HTTP/1.0 ".data ++ natChars 200 ++ " ".data ++ r :=
  reason_phrase_amended stdConfig none 200 none none (by simp)

/-- C6. Host security gate in non-headless mode: for every header buffer
the host regex rejects, header-finish processing writes exactly one
response, carrying status 400 and the exact body Invalid Host header
followed by a newline, and dispatches no endpoint. -/
theorem invalid_host_gate (h : List Char) (eps : List (List Char))
    (hhost : hostMatch h = false) :
    ∃ o, (headerFinishedStep stdConfig eps { header := h }).written
        = [generateResponse stdConfig o 400 (some "text/plain".data)
            (some "Invalid Host header\n".data)]
      ∧ statusOfResponse (generateResponse stdConfig o 400 (some "text/plain".data)
            (some "Invalid Host header\n".data)) = 400
      ∧ clientBodyOf (generateResponse stdConfig o 400 (some "text/plain".data)
            (some "Invalid Host header\n".data)) = some "Invalid Host header\n".data
      ∧ (headerFinishedStep stdConfig eps { header := h }).dispatched = [] := by
  obtain ⟨o, heo⟩ := extractOrigin_eq stdConfig
    { ({ header := h } : DataListener) with headerFinished := true }
  refine ⟨o, ?_, statusOfResponse_generateResponse _ _ _ _ _, ?_, ?_⟩
  · simp only [headerFinishedStep, heo]
    simp [stdConfig, hhost, requestFinished]
  · have hb := clientBodyOf_generateResponse o 400 (some "text/plain".data)
      (some "Invalid Host header\n".data) (by decide)
    simpa using hb
  · simp only [headerFinishedStep, heo]
    simp [stdConfig, hhost, requestFinished]

/-- C6, witness: a request with no Host header at all. -/
theorem invalid_host_gate_witness :
    ∃ o, (headerFinishedStep stdConfig sampleEndpoints
          { header := "GET /a HTTP/1.0\r\n\r\n".data }).written
        = [generateResponse stdConfig o 400 (some "text/plain".data)
            (some "Invalid Host header\n".data)]
      ∧ statusOfResponse (generateResponse stdConfig o 400 (some "text/plain".data)
            (some "Invalid Host header\n".data)) = 400
      ∧ clientBodyOf (generateResponse stdConfig o 400 (some "text/plain".data)
            (some "Invalid Host header\n".data)) = some "Invalid Host header\n".data
      ∧ (headerFinishedStep stdConfig sampleEndpoints
          { header := "GET /a HTTP/1.0\r\n\r\n".data }).dispatched = [] :=
  invalid_host_gate "GET /a HTTP/1.0\r\n\r\n".data sampleEndpoints (by decide)

/-- C8. Response round trip: for every status and carriage-return-free
content type, a response built with a nonempty body parses back (by a
conforming client) to the same status and exactly that body, with no
Content-Length: 0 header line; a response built with a falsy body (absent
or empty) parses back to the same status with an empty body, and the
Content-Length: 0 header line is present. -/
theorem response_roundtrip (st : Nat) (ct : Option (List Char))
    (hct : ∀ c ∈ ct.getD [], c ≠ '\r') :
    (∀ b, b ≠ [] →
      clientParse (generateResponse stdConfig none st ct (some b))
        = some (st, respLines stdConfig none st ct (some b), b)
      ∧ "Content-Length: 0".data ∉ respLines stdConfig none st ct (some b))
    ∧ (∀ bod, jsTruthy bod = false →
      clientParse (generateResponse stdConfig none st ct bod)
        = some (st, respLines stdConfig none st ct bod, [])
      ∧ "Content-Length: 0".data ∈ respLines stdConfig none st ct bod) := by
  constructor
  · intro b hb
    obtain ⟨c, cs, rfl⟩ : ∃ c cs, b = c :: cs := by
      cases b with
      | nil => exact absurd rfl hb
      | cons c cs => exact ⟨c, cs, rfl⟩
    have htr : jsTruthy (some (c :: cs)) = true := rfl
    constructor
    · have hp := clientParse_generateResponse none st ct (some (c :: cs)) hct
      simpa [htr] using hp
    · intro hmem
      have hsrv : stdConfig.isServer = false := rfl
      simp [respLines, hsrv, htr, stdConfig] at hmem
  · intro bod hbod
    constructor
    · have hp := clientParse_generateResponse none st ct bod hct
      simpa [hbod] using hp
    · have hsrv : stdConfig.isServer = false := rfl
      simp [respLines, hsrv, hbod, stdConfig]

/-- C8, witness at status 200 with content type text/plain, body hi and
bodyless. -/
theorem response_roundtrip_witness :
    (clientParse (generateResponse stdConfig none 200 (some "text/plain".data)
          (some "hi".data))
        = some (200, respLines stdConfig none 200 (some "text/plain".data)
            (some "hi".data), "hi".data)
      ∧ "Content-Length: 0".data ∉ respLines stdConfig none 200
          (some "text/plain".data) (some "hi".data))
    ∧ (clientParse (generateResponse stdConfig none 200 (some "text/plain".data) none)
        = some (200, respLines stdConfig none 200 (some "text/plain".data) none, [])
      ∧ "Content-Length: 0".data ∈ respLines stdConfig none 200
          (some "text/plain".data) none) :=
  ⟨(response_roundtrip 200 (some "text/plain".data) (by decide)).1 "hi".data (by decide),
   (response_roundtrip 200 (some "text/plain".data) (by decide)).2 none rfl⟩

/-- C10. decodeQueryString on an equals-free segment: the key is the empty
string (substr with the -1 index) and the value is the percent-decoded
whole segment; consequently a later equals-free segment overwrites the
entry of an earlier one. -/
theorem query_string_no_equals :
    (∀ v : List Char, '=' ∉ v → '&' ∉ v →
      decodeQueryString v = [([], decodeURIComponent v)])
    ∧ (∀ a b : List Char, '=' ∉ a → '&' ∉ a → '=' ∉ b → '&' ∉ b →
      decodeQueryString (a ++ '&' :: b) = [([], decodeURIComponent b)]) := by
  constructor
  · intro v hv1 hv2
    simp only [decodeQueryString]
    rw [show splitOnChar '&' v = [v] from splitOnChar_no_sep '&' v hv2]
    simp only [List.foldl_cons, List.foldl_nil]
    rw [jsIndexOfChar_not_mem v '=' hv1]
    simp [jsSubstrLen, jsSubstrFrom, objSet, decodeURIComponent]
  · intro a b ha1 ha2 hb1 hb2
    simp only [decodeQueryString]
    rw [show splitOnChar '&' (a ++ '&' :: b) = [a, b] from splitOnChar_two '&' a b ha2 hb2]
    simp only [List.foldl_cons, List.foldl_nil]
    rw [jsIndexOfChar_not_mem a '=' ha1, jsIndexOfChar_not_mem b '=' hb1]
    simp [jsSubstrLen, jsSubstrFrom, objSet, decodeURIComponent]

/-- C10, witness: the query string foo&bar maps the empty key to bar. -/
theorem query_string_no_equals_witness :
    decodeQueryString ("foo".data ++ '&' :: "bar".data)
      = [([], decodeURIComponent "bar".data)] :=
  query_string_no_equals.2 "foo".data "bar".data
    (by decide) (by decide) (by decide) (by decide)

/-- C2, amended. The whole decode fails, with no partial result, exactly
when some middle segment's trim lacks the Windows separator CRLFCRLF;
when the Windows separator is present, the split is at the Unix double
newline when that occurs strictly earlier, and at the Windows separator
otherwise. A segment whose only separator is the Unix one is rejected
(counterexample theorem). -/
theorem multipart_separator_amended :
    (∀ data boundary,
      decodeMultipartData data boundary = .error ()
        ↔ ∃ f ∈ middleSegments data boundary,
            ¬ ∃ x y, jsTrim f = x ++ "\r\n\r\n".data ++ y)
    ∧ (∀ f u w, idxOfStr (jsTrim f) "\n\n".data = some u
        → idxOfStr (jsTrim f) "\r\n\r\n".data = some w → u < w
        → decodeField f = .ok ⟨(jsTrim f).take u, (jsTrim f).drop (u + 2),
            fieldAttrs ((jsTrim f).take u)⟩)
    ∧ (∀ f w, idxOfStr (jsTrim f) "\r\n\r\n".data = some w
        → (∀ u, idxOfStr (jsTrim f) "\n\n".data = some u → w ≤ u)
        → decodeField f = .ok ⟨(jsTrim f).take w, (jsTrim f).drop (w + 4),
            fieldAttrs ((jsTrim f).take w)⟩) := by
  have hnl : ("\n\n".data : List Char) = ['\n', '\n'] := rfl
  have hwl : ("\r\n\r\n".data : List Char) = ['\r', '\n', '\r', '\n'] := rfl
  refine ⟨?_, ?_, ?_⟩
  · intro data boundary
    rw [show decodeMultipartData data boundary
          = decodeFields (middleSegments data boundary) from rfl,
      decodeFields_error_iff]
    constructor
    · rintro ⟨f, hf, hfe⟩
      exact ⟨f, hf, (idxOfStr_none_iff _ _).mp ((decodeField_error_iff f).mp hfe)⟩
    · rintro ⟨f, hf, hno⟩
      exact ⟨f, hf, (decodeField_error_iff f).mpr ((idxOfStr_none_iff _ _).mpr hno)⟩
  · intro f u w hu hw huw
    rw [hnl] at hu
    rw [hwl] at hw
    have hui : jsIndexOfStr (jsTrim f) ['\n', '\n'] = Int.ofNat u := by
      unfold jsIndexOfStr; rw [hu]
    have hwi : jsIndexOfStr (jsTrim f) ['\r', '\n', '\r', '\n'] = Int.ofNat w := by
      unfold jsIndexOfStr; rw [hw]
    simp only [decodeField, hnl, hwl, hui, hwi]
    rw [if_pos ⟨Int.ofNat_lt.mpr huw, by simp⟩]
    simp
  · intro f w hw hmin
    rw [hwl] at hw
    have hwi : jsIndexOfStr (jsTrim f) ['\r', '\n', '\r', '\n'] = Int.ofNat w := by
      unfold jsIndexOfStr; rw [hw]
    cases hu : idxOfStr (jsTrim f) ['\n', '\n'] with
    | none =>
      have hui : jsIndexOfStr (jsTrim f) ['\n', '\n'] = -1 := by
        unfold jsIndexOfStr; rw [hu]
      simp only [decodeField, hnl, hwl, hui, hwi]
      rw [if_neg (by rintro ⟨_, h2⟩; exact h2 rfl)]
      rw [if_pos (by simp)]
      simp
    | some u =>
      have hle : w ≤ u := hmin u (by rw [hnl]; exact hu)
      have hui : jsIndexOfStr (jsTrim f) ['\n', '\n'] = Int.ofNat u := by
        unfold jsIndexOfStr; rw [hu]
      simp only [decodeField, hnl, hwl, hui, hwi]
      rw [if_neg (by
        rintro ⟨h1, _⟩
        have huw : u < w := Int.ofNat_lt.mp h1
        omega)]
      rw [if_pos (by simp)]
      simp

/-- C2, witness for the amended theorem: a segment with both separators,
Unix first, splits at the Unix double newline. -/
theorem multipart_separator_amended_witness :
    decodeField "A\n\nB\r\n\r\nC".data
      = .ok ⟨(jsTrim "A\n\nB\r\n\r\nC".data).take 1,
             (jsTrim "A\n\nB\r\n\r\nC".data).drop 3,
             fieldAttrs ((jsTrim "A\n\nB\r\n\r\nC".data).take 1)⟩ :=
  multipart_separator_amended.2.1 "A\n\nB\r\n\r\nC".data 1 4
    (by decide) (by decide) (by decide)
